import Mathlib

/-!
Verification of the `TimeSeriesFinanceClient` core (`teii/finance/timeseries.py`):
a shallow embedding of `_build_data_frame` and of the four query methods
`weekly_price`, `weekly_volume`, `yearly_dividends` and
`highest_weekly_variation`, together with proofs about them.

Modelling conventions:
* Calendar dates are encoded as natural numbers of the shape `YYYYMMDD`
  (e.g. `20231027`); the natural order on these codes agrees with the
  calendar order, and `index.year` of pandas is `d / 10000`.  The API keys
  the dated records with ISO `YYYY-MM-DD` strings, whose parse into
  `datetime64` values is injective, so raw keys are modelled by their parsed
  dates directly.
* Float values are modelled by rationals.  The `dtype=float` coercion of
  `pd.DataFrame.from_dict` (string → float) is modelled upstream of the
  builder: a raw record is a list of (field label, parsed value) pairs.
* A pandas `NaN` cell (a label missing from one record while present in
  another) is modelled by `Option`: `none` is a missing cell.
* Exceptions are modelled by `Except`: a method that raises returns
  `Except.error`.
-/

/-- Errors raised by the client: `FinanceClientInvalidData` and
`FinanceClientParamError` from `teii.finance`. -/
inductive FinanceError where
  | financeClientInvalidData (msg : String)
  | financeClientParamError (msg : String)
  deriving DecidableEq, Repr

/-- One raw weekly record: field label (such as "1. open") paired with its
numeric value, the value already coerced from its decimal string by the
`dtype=float` conversion of `from_dict`.  Labels within a record are keys of
a Python dict, hence pairwise distinct. -/
abbrev RawRecord := List (String × ℚ)

/-- The pandas data frame built by `_build_data_frame`: named columns and
date-indexed rows.  Each row stores its cells as (column name, cell) pairs,
aligned with `cols`; a `none` cell is a pandas `NaN`. -/
structure DataFrame where
  cols : List String
  rows : List (Nat × List (String × Option ℚ))
  deriving DecidableEq, Repr

/-- The `_data_field2name_type` table of `TimeSeriesFinanceClient`:
raw field label, canonical column name, numeric kind. -/
def data_field2name_type : List (String × String × String) :=
  [("1. open", "open", "float"),
   ("2. high", "high", "float"),
   ("3. low", "low", "float"),
   ("4. close", "close", "float"),
   ("5. adjusted close", "aclose", "float"),
   ("6. volume", "volume", "int"),
   ("7. dividend amount", "dividend", "float")]

/-- The seven canonical column names demanded by the schema. -/
def canonicalNames : List String :=
  data_field2name_type.map (fun e => e.2.1)

/-- The column renaming of `DataFrame.rename`: a label that is a key of
`_data_field2name_type` becomes its canonical name, any other label is kept
unchanged (pandas `rename` ignores absent keys). -/
def renameCol (c : String) : String :=
  match data_field2name_type.find? (fun e => e.1 == c) with
  | some e => e.2.1
  | none => c

/-- Column set of `pd.DataFrame.from_dict` with `orient=index`: the union of
the field labels of all records, in first-seen order. -/
def collectCols (raw : List (Nat × RawRecord)) : List String :=
  raw.foldl (fun acc r => r.2.foldl (fun a kv => if kv.1 ∈ a then a else a ++ [kv.1]) acc) []

/-- Value of a field label inside one raw record (`none` when absent). -/
def lookupLabel (r : RawRecord) (c : String) : Option ℚ :=
  (r.find? (fun kv => kv.1 == c)).map (fun kv => kv.2)

/-- Row part of `from_dict` with `orient=index`: one row per record, one cell per
column, `NaN` (`none`) where the record lacks the label. -/
def fromDictRows (raw : List (Nat × RawRecord)) (cols : List String) :
    List (Nat × List (String × Option ℚ)) :=
  raw.map (fun r => (r.1, cols.map (fun c => (c, lookupLabel r.2 c))))

/-- Cell of a row at a named column. -/
def cellOf (row : List (String × Option ℚ)) (n : String) : Option ℚ :=
  match row.find? (fun kv => kv.1 == n) with
  | some kv => kv.2
  | none => none

/-- Truncation toward zero of a rational, the C-style cast performed by
`astype` to `int` on a float column. -/
def ratTruncToInt (q : ℚ) : ℤ := Int.tdiv q.num (q.den : ℤ)

/-- Cast one named column to integers (`astype` to `int` on that column). -/
def castColToInt (rows : List (Nat × List (String × Option ℚ))) (n : String) :
    List (Nat × List (String × Option ℚ)) :=
  rows.map (fun r => (r.1, r.2.map (fun kv =>
    if kv.1 == n then (kv.1, kv.2.map (fun q => ((ratTruncToInt q : ℤ) : ℚ))) else kv)))

/-- One entry of the `astype(dtype={...})` call of `_build_data_frame`: the
named column must exist (pandas raises `KeyError` otherwise, re-raised by the
method as `FinanceClientInvalidData` with the wrapped message); an `int`
column must hold no `NaN` cell (pandas `IntCastingNaNError`, re-raised the
same way) and is truncated to integers; a `float` column is left as is, `NaN`
cells included.  The wrapped message texts stand in for the pandas exception
texts interpolated by the `except` clause of `_build_data_frame`. -/
def astypeOne (cols : List String) (rows : List (Nat × List (String × Option ℚ)))
    (entry : String × String × String) :
    Except FinanceError (List (Nat × List (String × Option ℚ))) :=
  if entry.2.1 ∈ cols then
    if entry.2.2 == "int" then
      if rows.all (fun r => (cellOf r.2 entry.2.1).isSome) then
        .ok (castColToInt rows entry.2.1)
      else
        .error (.financeClientInvalidData
          "Error building DataFrame from API response: Cannot convert non-finite values (NA or inf) to integer")
    else .ok rows
  else
    .error (.financeClientInvalidData
      ("Error building DataFrame from API response: Only a column name can be used for the key in a dtype mappings argument. "
        ++ entry.2.1 ++ " not found in columns."))

/-- The full `astype` call, folded over the entries of
`_data_field2name_type`. -/
def astypeAll (cols : List String) :
    List (String × String × String) → List (Nat × List (String × Option ℚ)) →
    Except FinanceError (List (Nat × List (String × Option ℚ)))
  | [], rows => .ok rows
  | e :: es, rows =>
      match astypeOne cols rows e with
      | .error err => .error err
      | .ok rows2 => astypeAll cols es rows2

/-- Comparison of rows by their date key, the order used by
`sort_index(ascending=True)`. -/
def keyLe {α : Type} (a b : Nat × α) : Prop := a.1 ≤ b.1

instance {α : Type} : DecidableRel (keyLe (α := α)) :=
  fun a b => inferInstanceAs (Decidable (a.1 ≤ b.1))

instance {α : Type} : IsTotal (Nat × α) keyLe := ⟨fun a b => Nat.le_total a.1 b.1⟩

instance {α : Type} : IsTrans (Nat × α) keyLe := ⟨fun _ _ _ => Nat.le_trans⟩

/-- `TimeSeriesFinanceClient._build_data_frame`, step by step:
empty-payload check, `from_dict` with `orient=index, dtype=float`, `df.empty`
check (a data frame is empty when it has no rows or no columns; note that the
inner `FinanceClientInvalidData` is caught by the enclosing `except` clause
and re-raised with the wrapped message), column renaming, `astype`, and
`sort_index(ascending=True)`.  The index conversion to `datetime64[ns]` is
the identity here because keys are modelled as parsed dates. -/
def build_data_frame (raw : List (Nat × RawRecord)) : Except FinanceError DataFrame :=
  if raw.isEmpty then
    .error (.financeClientInvalidData
      "No weekly adjusted time series data found in API response.")
  else
    let cols := collectCols raw
    let rows := fromDictRows raw cols
    if rows.isEmpty || cols.isEmpty then
      .error (.financeClientInvalidData
        "Error building DataFrame from API response: DataFrame is empty after parsing JSON data.")
    else
      let cols2 := cols.map renameCol
      let rows2 := rows.map (fun r => (r.1, r.2.map (fun kv => (renameCol kv.1, kv.2))))
      match astypeAll cols2 data_field2name_type rows2 with
      | .error e => .error e
      | .ok rows3 => .ok ⟨cols2, List.insertionSort keyLe rows3⟩

/-- C7: construction from an empty (or absent, which the base class hands
over as empty) dated-records mapping raises `FinanceClientInvalidData` with
the message "No weekly adjusted time series data found in API response.",
and no data frame is produced. -/
theorem build_data_frame_empty_raises :
    build_data_frame [] = .error (.financeClientInvalidData
      "No weekly adjusted time series data found in API response.") := rfl

/-- A typed row of the built table: the seven canonical columns of the
schema, with the `volume` column of integer kind. -/
structure Row where
  openv : ℚ
  high : ℚ
  low : ℚ
  close : ℚ
  aclose : ℚ
  volume : ℤ
  dividend : ℚ
  deriving DecidableEq, Repr

/-- A built table as seen by the query methods: date-indexed typed rows.
Query theorems take its defining invariant (strictly ascending dates,
established at construction by C1) as a hypothesis. -/
abbrev Table := List (Nat × Row)

/-- The table invariant: the date index is strictly ascending. -/
abbrev keysAscending {α : Type} (s : List (Nat × α)) : Prop :=
  (s.map Prod.fst).Pairwise (· < ·)

/-- Column selection `self._data_frame[aclose]` of `weekly_price`. -/
def priceSeries (t : Table) : List (Nat × ℚ) :=
  t.map (fun p => (p.1, p.2.aclose))

/-- Column selection `self._data_frame[volume]` of `weekly_volume`. -/
def volumeSeries (t : Table) : List (Nat × ℤ) :=
  t.map (fun p => (p.1, p.2.volume))

/-- Column selection `self._data_frame[dividend]` of `yearly_dividends`. -/
def dividendSeries (t : Table) : List (Nat × ℚ) :=
  t.map (fun p => (p.1, p.2.dividend))

/-- Column selection `self._data_frame[[high, low]].copy()` of
`highest_weekly_variation`. -/
def highLowSeries (t : Table) : List (Nat × ℚ × ℚ) :=
  t.map (fun p => (p.1, p.2.high, p.2.low))

/-- Label slicing `series.loc[from_date:to_date]` on a sorted index: skip the
leading labels before `from_date`, keep labels up to `to_date` (both bounds
inclusive). -/
def locRange {α : Type} (s : List (Nat × α)) (f g : Nat) : List (Nat × α) :=
  (s.dropWhile (fun p => decide (p.1 < f))).takeWhile (fun p => decide (p.1 ≤ g))

/-- Label slicing `series.loc[from_date:]` on a sorted index. -/
def locFrom {α : Type} (s : List (Nat × α)) (f : Nat) : List (Nat × α) :=
  s.dropWhile (fun p => decide (p.1 < f))

/-- Label slicing `series.loc[:to_date]` on a sorted index. -/
def locUpTo {α : Type} (s : List (Nat × α)) (g : Nat) : List (Nat × α) :=
  s.takeWhile (fun p => decide (p.1 ≤ g))

/-- The date-range block shared verbatim by `weekly_price`, `weekly_volume`
and `highest_weekly_variation`: when both bounds are given, first the order
check raising `FinanceClientParamError`, then the inclusive `.loc` slice;
one-sided slices when one bound is given; the series untouched otherwise. -/
def filterByDates {α : Type} (s : List (Nat × α)) (from_date to_date : Option Nat) :
    Except FinanceError (List (Nat × α)) :=
  match from_date, to_date with
  | some f, some g =>
      if f > g then
        .error (.financeClientParamError
          "\x27from_date\x27 cannot be greater than \x27to_date\x27")
      else .ok (locRange s f g)
  | some f, none => .ok (locFrom s f)
  | none, some g => .ok (locUpTo s g)
  | none, none => .ok s

/-- `TimeSeriesFinanceClient.weekly_price`. -/
def weekly_price (t : Table) (from_date to_date : Option Nat) :
    Except FinanceError (List (Nat × ℚ)) :=
  filterByDates (priceSeries t) from_date to_date

/-- `TimeSeriesFinanceClient.weekly_volume`. -/
def weekly_volume (t : Table) (from_date to_date : Option Nat) :
    Except FinanceError (List (Nat × ℤ)) :=
  filterByDates (volumeSeries t) from_date to_date

/-- Calendar year of an encoded `YYYYMMDD` date (`index.year` of pandas). -/
def yearOf (d : Nat) : Nat := d / 10000

/-- `groupby(series.index.year).sum()`: one entry per distinct year of the
input, keyed ascending (pandas sorts group keys), each entry holding the sum
of the values of its year. -/
def groupYearSum (s : List (Nat × ℚ)) : List (Nat × ℚ) :=
  (List.insertionSort (· ≤ ·) ((s.map (fun p => yearOf p.1)).dedup)).map
    (fun y => (y, ((s.filter (fun p => yearOf p.1 == y)).map (fun p => p.2)).sum))

/-- `TimeSeriesFinanceClient.yearly_dividends`: select the dividend column,
drop the non-positive entries, check the year range and filter by it
(inclusive on the given bounds), then group by year and sum. -/
def yearly_dividends (t : Table) (from_year to_year : Option Nat) :
    Except FinanceError (List (Nat × ℚ)) :=
  let s := (dividendSeries t).filter (fun p => decide (0 < p.2))
  match from_year, to_year with
  | some f, some g =>
      if f > g then
        .error (.financeClientParamError
          "\x27from_year\x27 cannot be greater than \x27to_year\x27")
      else .ok (groupYearSum (s.filter (fun p =>
        decide (f ≤ yearOf p.1) && decide (yearOf p.1 ≤ g))))
  | some f, none => .ok (groupYearSum (s.filter (fun p => decide (f ≤ yearOf p.1))))
  | none, some g => .ok (groupYearSum (s.filter (fun p => decide (yearOf p.1 ≤ g))))
  | none, none => .ok (groupYearSum s)

/-- The scan of `Series.idxmax` followed by `.loc`: first entry of the list
whose fourth component (the variation) is maximal; a later entry replaces the
current best only when strictly greater, so ties keep the earliest entry. -/
def argmaxVar : (Nat × ℚ × ℚ × ℚ) → List (Nat × ℚ × ℚ × ℚ) → (Nat × ℚ × ℚ × ℚ)
  | best, [] => best
  | best, x :: xs => argmaxVar (if best.2.2.2 < x.2.2.2 then x else best) xs

/-- The `variation` column assignment `high - low` of one row. -/
def addVariation (p : Nat × ℚ × ℚ) : Nat × ℚ × ℚ × ℚ :=
  (p.1, p.2.1, p.2.2, p.2.1 - p.2.2)

/-- `TimeSeriesFinanceClient.highest_weekly_variation`: take the high/low
columns, apply the shared date-range block, raise
`FinanceClientInvalidData` on an empty filtered frame, otherwise add the
`variation = high - low` column and return the row found by `idxmax` (the
first row attaining the maximal variation), its index converted from
timestamp to a plain calendar date (the identity on this date encoding). -/
def highest_weekly_variation (t : Table) (from_date to_date : Option Nat) :
    Except FinanceError (Nat × ℚ × ℚ × ℚ) :=
  match filterByDates (highLowSeries t) from_date to_date with
  | .error e => .error e
  | .ok dfv =>
      match dfv with
      | [] => .error (.financeClientInvalidData
          "No data available for the specified date range.")
      | x :: xs => .ok (argmaxVar (addVariation x) (xs.map addVariation))

/-- `weekly_price` with the client state threaded: the second component is
`self._data_frame` after the call; the method body only reads the frame. -/
def weekly_priceS (t : Table) (from_date to_date : Option Nat) :
    Except FinanceError (List (Nat × ℚ)) × Table :=
  (weekly_price t from_date to_date, t)

/-- `weekly_volume` with the client state threaded; the body only reads the
frame. -/
def weekly_volumeS (t : Table) (from_date to_date : Option Nat) :
    Except FinanceError (List (Nat × ℤ)) × Table :=
  (weekly_volume t from_date to_date, t)

/-- `yearly_dividends` with the client state threaded; the body only reads
the frame (every filter builds a new series). -/
def yearly_dividendsS (t : Table) (from_year to_year : Option Nat) :
    Except FinanceError (List (Nat × ℚ)) × Table :=
  (yearly_dividends t from_year to_year, t)

/-- `highest_weekly_variation` with the client state threaded; the body works
on `self._data_frame[[high, low]].copy()`, so the `variation` column is
added to a fresh frame and the client frame is only read. -/
def highest_weekly_variationS (t : Table) (from_date to_date : Option Nat) :
    Except FinanceError (Nat × ℚ × ℚ × ℚ) × Table :=
  (highest_weekly_variation t from_date to_date, t)

/-- Validity of an optional date (or year) range: when both bounds are given
the lower one is at most the upper one. -/
abbrev validRange : Option Nat → Option Nat → Prop
  | some f, some g => f ≤ g
  | _, _ => True

/-- Membership of a date (or year) in an optional inclusive range. -/
def inRange (from_bound to_bound : Option Nat) (d : Nat) : Bool :=
  (match from_bound with | some f => decide (f ≤ d) | none => true) &&
  (match to_bound with | some g => decide (d ≤ g) | none => true)

instance {ε α : Type} [DecidableEq ε] [DecidableEq α] : DecidableEq (Except ε α) := fun a b =>
  match a, b with
  | .error e, .error e2 => decidable_of_iff (e = e2) (by simp)
  | .error _, .ok _ => isFalse (by simp)
  | .ok _, .error _ => isFalse (by simp)
  | .ok x, .ok y => decidable_of_iff (x = y) (by simp)

/-- Frame carried by a successful build result (dummy empty frame on an
error, which concrete uses rule out). -/
def okFrameOf (r : Except FinanceError DataFrame) : DataFrame :=
  match r with
  | .ok f => f
  | .error _ => ⟨[], []⟩

/-- A complete raw record (all seven field labels) with the given values. -/
def mkRawRecord (o h l c a v d : ℚ) : RawRecord :=
  [("1. open", o), ("2. high", h), ("3. low", l), ("4. close", c),
   ("5. adjusted close", a), ("6. volume", v), ("7. dividend amount", d)]

/-- A sample raw payload: two complete weekly records, newest first, the
order in which the API reports them. -/
def rawSample : List (Nat × RawRecord) :=
  [(20230113, mkRawRecord 320 330 318 325 325 1200000 1),
   (20230106, mkRawRecord 300 310 298 305 305 1100000 0)]

/-- A raw payload that carries an eighth, unexpected field label with a
float-coercible value alongside the seven expected ones. -/
def rawExtra : List (Nat × RawRecord) :=
  [(20230113, mkRawRecord 320 330 318 325 325 1200000 1 ++ [("8. split coefficient", 1)]),
   (20230106, mkRawRecord 300 310 298 305 305 1100000 0)]

/-- A raw payload whose second record lacks the "1. open" label while the
first record carries it. -/
def rawMissing : List (Nat × RawRecord) :=
  [(20230106, mkRawRecord 300 310 298 305 305 1100000 0),
   (20230113, [("2. high", 330), ("3. low", 318), ("4. close", 325),
               ("5. adjusted close", 325), ("6. volume", 1200000),
               ("7. dividend amount", 1)])]

/-- A sample built table with two typed rows in ascending date order. -/
def tSample : Table :=
  [(20230106, ⟨300, 310, 298, 305, 305, 1100000, 0⟩),
   (20230113, ⟨320, 330, 318, 325, 325, 1200000, 1⟩)]

theorem pairwise_keyLe_of_ascending {α : Type} {s : List (Nat × α)}
    (hs : keysAscending s) : s.Pairwise (fun a b => a.1 ≤ b.1) :=
  (List.pairwise_map.mp hs).imp (fun h => Nat.le_of_lt h)

theorem keysAscending_mapVal {α β : Type} (v : Nat × α → β) {s : List (Nat × α)}
    (hs : keysAscending s) : keysAscending (s.map (fun p => (p.1, v p))) := by
  simp only [keysAscending, List.pairwise_map] at hs ⊢
  exact hs

theorem dropWhile_lt_eq_filter {α : Type} (f : Nat) {s : List (Nat × α)}
    (hs : s.Pairwise (fun a b => a.1 ≤ b.1)) :
    s.dropWhile (fun p => decide (p.1 < f)) = s.filter (fun p => decide (f ≤ p.1)) := by
  induction s with
  | nil => rfl
  | cons a l ih =>
    rcases List.pairwise_cons.mp hs with ⟨ha, hl⟩
    rw [List.dropWhile_cons, List.filter_cons]
    by_cases h : a.1 < f
    · rw [if_pos (by simpa using h), if_neg (by simpa using Nat.not_le.mpr h)]
      exact ih hl
    · rw [if_neg (by simpa using h), if_pos (by simpa using Nat.le_of_not_lt h)]
      have : l.filter (fun p => decide (f ≤ p.1)) = l :=
        List.filter_eq_self.mpr (fun b hb => by
          simpa using Nat.le_trans (Nat.le_of_not_lt h) (ha b hb))
      rw [this]

theorem takeWhile_le_eq_filter {α : Type} (g : Nat) {s : List (Nat × α)}
    (hs : s.Pairwise (fun a b => a.1 ≤ b.1)) :
    s.takeWhile (fun p => decide (p.1 ≤ g)) = s.filter (fun p => decide (p.1 ≤ g)) := by
  induction s with
  | nil => rfl
  | cons a l ih =>
    rcases List.pairwise_cons.mp hs with ⟨ha, hl⟩
    rw [List.takeWhile_cons, List.filter_cons]
    by_cases h : a.1 ≤ g
    · rw [if_pos (by simpa using h), if_pos (by simpa using h), ih hl]
    · rw [if_neg (by simpa using h), if_neg (by simpa using h)]
      have : l.filter (fun p => decide (p.1 ≤ g)) = [] :=
        List.filter_eq_nil_iff.mpr (fun b hb => by
          simp only [decide_eq_true_eq]
          exact fun hbg => h (Nat.le_trans (ha b hb) hbg))
      rw [this]

theorem filterByDates_eq_filter {α : Type} {s : List (Nat × α)} (fd td : Option Nat)
    (hs : s.Pairwise (fun a b => a.1 ≤ b.1)) (hv : validRange fd td) :
    filterByDates s fd td = .ok (s.filter (fun q => inRange fd td q.1)) := by
  match fd, td with
  | some f, some g =>
    have hng : ¬ f > g := Nat.not_lt.mpr hv
    rw [filterByDates, if_neg hng]
    unfold locRange
    rw [dropWhile_lt_eq_filter f hs,
        takeWhile_le_eq_filter g (List.Pairwise.sublist (List.filter_sublist _) hs),
        List.filter_filter]
    exact congrArg _ (List.filter_congr (fun x _ => Bool.and_comm _ _))
  | some f, none =>
    rw [filterByDates]
    unfold locFrom
    rw [dropWhile_lt_eq_filter f hs]
    exact congrArg _ (List.filter_congr (fun x _ => by simp [inRange]))
  | none, some g =>
    rw [filterByDates]
    unfold locUpTo
    rw [takeWhile_le_eq_filter g hs]
    exact congrArg _ (List.filter_congr (fun x _ => by simp [inRange]))
  | none, none =>
    rw [filterByDates]
    have : s.filter (fun q => inRange none none q.1) = s :=
      List.filter_eq_self.mpr (fun b _ => by simp [inRange])
    rw [this]

theorem filterByDates_sublist {α : Type} {s res : List (Nat × α)} {fd td : Option Nat}
    (h : filterByDates s fd td = .ok res) : res.Sublist s := by
  match fd, td with
  | some f, some g =>
    rw [filterByDates] at h
    by_cases hfg : f > g
    · rw [if_pos hfg] at h; exact absurd h (by simp)
    · rw [if_neg hfg] at h
      simp only [Except.ok.injEq] at h
      subst h
      exact (List.takeWhile_sublist _).trans (List.dropWhile_sublist _)
  | some f, none =>
    rw [filterByDates] at h
    simp only [Except.ok.injEq] at h
    subst h
    exact List.dropWhile_sublist _
  | none, some g =>
    rw [filterByDates] at h
    simp only [Except.ok.injEq] at h
    subst h
    exact List.takeWhile_sublist _
  | none, none =>
    rw [filterByDates] at h
    simp only [Except.ok.injEq] at h
    subst h
    exact List.Sublist.refl _

theorem filterByDates_map_ok {α β : Type} (v : Nat × α → β) {s res : List (Nat × α)}
    {fd td : Option Nat} (h : filterByDates s fd td = .ok res) :
    filterByDates (s.map (fun p => (p.1, v p))) fd td =
      .ok (res.map (fun p => (p.1, v p))) := by
  match fd, td with
  | some f, some g =>
    rw [filterByDates] at h ⊢
    by_cases hfg : f > g
    · rw [if_pos hfg] at h; exact absurd h (by simp)
    · rw [if_neg hfg] at h ⊢
      simp only [Except.ok.injEq] at h ⊢
      subst h
      unfold locRange
      rw [List.dropWhile_map, List.takeWhile_map]
      exact rfl
  | some f, none =>
    rw [filterByDates] at h ⊢
    simp only [Except.ok.injEq] at h ⊢
    subst h
    unfold locFrom
    rw [List.dropWhile_map]
    exact rfl
  | none, some g =>
    rw [filterByDates] at h ⊢
    simp only [Except.ok.injEq] at h ⊢
    subst h
    unfold locUpTo
    rw [List.takeWhile_map]
    exact rfl
  | none, none =>
    rw [filterByDates] at h ⊢
    simp only [Except.ok.injEq] at h ⊢
    subst h
    rfl

/-- C3: on a table with ascending date index, `weekly_price` and
`weekly_volume` under a valid range (both bounds, one bound, or none) return
exactly the series entries whose date lies in the inclusive range, in
ascending date order; in particular with `from_date = to_date` every row
bearing that exact date is included. -/
theorem weekly_price_volume_range_filter (t : Table) (hs : keysAscending t)
    (fd td : Option Nat) (hv : validRange fd td) :
    weekly_price t fd td = .ok ((priceSeries t).filter (fun q => inRange fd td q.1))
    ∧ weekly_volume t fd td = .ok ((volumeSeries t).filter (fun q => inRange fd td q.1))
    ∧ keysAscending ((priceSeries t).filter (fun q => inRange fd td q.1))
    ∧ keysAscending ((volumeSeries t).filter (fun q => inRange fd td q.1))
    ∧ (∀ d, fd = some d → td = some d → ∀ p ∈ t, p.1 = d →
        ((d, p.2.aclose) ∈ (priceSeries t).filter (fun q => inRange fd td q.1)
         ∧ (d, p.2.volume) ∈ (volumeSeries t).filter (fun q => inRange fd td q.1))) := by
  have hsp : keysAscending (priceSeries t) := keysAscending_mapVal _ hs
  have hsv : keysAscending (volumeSeries t) := keysAscending_mapVal _ hs
  refine ⟨filterByDates_eq_filter fd td (pairwise_keyLe_of_ascending hsp) hv,
          filterByDates_eq_filter fd td (pairwise_keyLe_of_ascending hsv) hv,
          List.Pairwise.sublist ((List.filter_sublist _).map Prod.fst) hsp,
          List.Pairwise.sublist ((List.filter_sublist _).map Prod.fst) hsv,
          ?_⟩
  intro d hfd htd p hp hpd
  subst hfd htd
  constructor
  · exact List.mem_filter.mpr ⟨List.mem_map.mpr ⟨p, hp, by rw [hpd]⟩,
      by simp [inRange, hpd]⟩
  · exact List.mem_filter.mpr ⟨List.mem_map.mpr ⟨p, hp, by rw [hpd]⟩,
      by simp [inRange, hpd]⟩

theorem weekly_price_volume_range_filter_witness :
    keysAscending tSample ∧ validRange (some 20230106) (some 20230113) ∧
    weekly_price tSample (some 20230106) (some 20230113) =
      .ok ((priceSeries tSample).filter
        (fun q => inRange (some 20230106) (some 20230113) q.1)) :=
  ⟨by decide, by decide,
   (weekly_price_volume_range_filter tSample (by decide) (some 20230106)
     (some 20230113) (by decide)).1⟩

/-- C2: with both bounds given and `from` greater than `to`, each of
`weekly_price`, `weekly_volume` and `highest_weekly_variation` raises
`FinanceClientParamError` with the from-date/to-date order
message, and `yearly_dividends` raises it with the from-year/to-year order
message, for every table whatever its contents, and the frame of the client
is left unchanged. -/
theorem range_reversed_param_error (t : Table) (f g : Nat) (h : g < f) :
    weekly_priceS t (some f) (some g) =
      (.error (.financeClientParamError
        "\x27from_date\x27 cannot be greater than \x27to_date\x27"), t)
    ∧ weekly_volumeS t (some f) (some g) =
      (.error (.financeClientParamError
        "\x27from_date\x27 cannot be greater than \x27to_date\x27"), t)
    ∧ highest_weekly_variationS t (some f) (some g) =
      (.error (.financeClientParamError
        "\x27from_date\x27 cannot be greater than \x27to_date\x27"), t)
    ∧ yearly_dividendsS t (some f) (some g) =
      (.error (.financeClientParamError
        "\x27from_year\x27 cannot be greater than \x27to_year\x27"), t) := by
  have hfg : f > g := h
  refine ⟨?_, ?_, ?_, ?_⟩ <;>
    simp [weekly_priceS, weekly_price, weekly_volumeS, weekly_volume,
          highest_weekly_variationS, highest_weekly_variation, yearly_dividendsS,
          yearly_dividends, filterByDates, hfg]

theorem range_reversed_param_error_witness :
    (20230101:ℕ) < 20240101 ∧
    weekly_priceS tSample (some 20240101) (some 20230101) =
      (.error (.financeClientParamError
        "\x27from_date\x27 cannot be greater than \x27to_date\x27"), tSample) :=
  ⟨by decide, (range_reversed_param_error tSample 20240101 20230101 (by decide)).1⟩

/-- C6: whenever the shared date-range block accepts the range but the
filtered high/low frame has zero rows, `highest_weekly_variation` raises
`FinanceClientInvalidData` with the message "No data available for the
specified date range." and returns no tuple. -/
theorem hwv_empty_range_invalid_data (t : Table) (fd td : Option Nat)
    (h : filterByDates (highLowSeries t) fd td = .ok []) :
    highest_weekly_variation t fd td =
      .error (.financeClientInvalidData
        "No data available for the specified date range.") := by
  unfold highest_weekly_variation
  rw [h]

theorem hwv_empty_range_invalid_data_witness :
    filterByDates (highLowSeries tSample) (some 19900101) (some 19901231) = .ok [] ∧
    highest_weekly_variation tSample (some 19900101) (some 19901231) =
      .error (.financeClientInvalidData
        "No data available for the specified date range.") :=
  ⟨by decide,
   hwv_empty_range_invalid_data tSample (some 19900101) (some 19901231) (by decide)⟩

/-- C9: no query method mutates the frame of the client (the threaded state after
each call equals the frame before it), and repeating the same query with the
same arguments on the post-call state returns an equal result. -/
theorem queries_read_only_idempotent (t : Table) (fd td fy ty : Option Nat) :
    (weekly_priceS t fd td).2 = t
    ∧ (weekly_volumeS t fd td).2 = t
    ∧ (yearly_dividendsS t fy ty).2 = t
    ∧ (highest_weekly_variationS t fd td).2 = t
    ∧ weekly_price ((weekly_priceS t fd td).2) fd td = (weekly_priceS t fd td).1
    ∧ weekly_volume ((weekly_volumeS t fd td).2) fd td = (weekly_volumeS t fd td).1
    ∧ yearly_dividends ((yearly_dividendsS t fy ty).2) fy ty = (yearly_dividendsS t fy ty).1
    ∧ highest_weekly_variation ((highest_weekly_variationS t fd td).2) fd td =
        (highest_weekly_variationS t fd td).1 :=
  ⟨rfl, rfl, rfl, rfl, rfl, rfl, rfl, rfl⟩

/-- C10: a valid date range that matches no rows makes `weekly_price` and
`weekly_volume` return an empty series normally, with no error, whereas
`highest_weekly_variation` raises `FinanceClientInvalidData` on the same
empty filtered range. -/
theorem weekly_empty_range_no_error (t : Table) (fd td : Option Nat)
    (h : filterByDates t fd td = .ok []) :
    weekly_price t fd td = .ok []
    ∧ weekly_volume t fd td = .ok []
    ∧ highest_weekly_variation t fd td =
        .error (.financeClientInvalidData
          "No data available for the specified date range.") := by
  have hp := filterByDates_map_ok (fun p => p.2.aclose) h
  have hv := filterByDates_map_ok (fun p => p.2.volume) h
  have hh := filterByDates_map_ok (fun p => (p.2.high, p.2.low)) h
  simp only [List.map_nil] at hp hv hh
  exact ⟨hp, hv, hwv_empty_range_invalid_data t fd td hh⟩

theorem weekly_empty_range_no_error_witness :
    filterByDates tSample (some 19900101) (some 19901231) = .ok [] ∧
    weekly_price tSample (some 19900101) (some 19901231) = .ok [] :=
  ⟨by decide,
   (weekly_empty_range_no_error tSample (some 19900101) (some 19901231) (by decide)).1⟩

theorem groupYearSum_keys (s : List (Nat × ℚ)) :
    (groupYearSum s).map Prod.fst =
      List.insertionSort (· ≤ ·) ((s.map (fun p => yearOf p.1)).dedup) := by
  unfold groupYearSum
  rw [List.map_map]
  exact List.map_id _

theorem mem_groupYearSum_keys {s : List (Nat × ℚ)} {y : Nat} :
    y ∈ (groupYearSum s).map Prod.fst ↔ ∃ p ∈ s, yearOf p.1 = y := by
  rw [groupYearSum_keys, List.mem_insertionSort, List.mem_dedup, List.mem_map]

theorem groupYearSum_entry {s : List (Nat × ℚ)} {y : Nat} {q : ℚ}
    (h : (y, q) ∈ groupYearSum s) :
    q = ((s.filter (fun p => yearOf p.1 == y)).map (fun p => p.2)).sum
    ∧ ∃ p ∈ s, yearOf p.1 = y := by
  unfold groupYearSum at h
  rcases List.mem_map.mp h with ⟨y2, hy2, heq⟩
  simp only [Prod.mk.injEq] at heq
  obtain ⟨rfl, rfl⟩ := heq
  exact ⟨rfl, List.mem_map.mp (List.mem_dedup.mp ((List.mem_insertionSort _).mp hy2))⟩

theorem groupYearSum_keys_ascending (s : List (Nat × ℚ)) :
    ((groupYearSum s).map Prod.fst).Pairwise (· < ·) := by
  rw [groupYearSum_keys]
  have hsorted : List.Sorted (· ≤ ·)
      (List.insertionSort (· ≤ ·) ((s.map (fun p => yearOf p.1)).dedup)) :=
    List.sorted_insertionSort _ _
  have hnodup : (List.insertionSort (· ≤ ·) ((s.map (fun p => yearOf p.1)).dedup)).Nodup :=
    ((List.perm_insertionSort _ _).nodup_iff).mpr (List.nodup_dedup _)
  exact (hsorted.and hnodup).imp (fun h => lt_of_le_of_ne h.1 h.2)

theorem groupYearSum_pos {s : List (Nat × ℚ)} (hpos : ∀ p ∈ s, 0 < p.2) :
    ∀ p ∈ groupYearSum s, 0 < p.2 := by
  intro p hp
  obtain ⟨y, q⟩ := p
  obtain ⟨hq, ⟨w, hw, hwy⟩⟩ := groupYearSum_entry hp
  show 0 < q
  rw [hq]
  apply List.sum_pos
  · intro x hx
    rcases List.mem_map.mp hx with ⟨r, hr, rfl⟩
    exact hpos r (List.mem_filter.mp hr).1
  · have hwf : w ∈ s.filter (fun p => yearOf p.1 == y) :=
      List.mem_filter.mpr ⟨hw, by simp [hwy]⟩
    intro hnil
    exact List.ne_nil_of_mem hwf (List.map_eq_nil_iff.mp hnil)

theorem yearly_dividends_eq (t : Table) (fy ty : Option Nat) (hv : validRange fy ty) :
    yearly_dividends t fy ty = .ok (groupYearSum
      (((dividendSeries t).filter (fun p => decide (0 < p.2))).filter
        (fun p => inRange fy ty (yearOf p.1)))) := by
  match fy, ty with
  | some f, some g =>
    have hng : ¬ f > g := Nat.not_lt.mpr hv
    simp only [yearly_dividends]
    rw [if_neg hng]
    exact rfl
  | some f, none =>
    simp only [yearly_dividends]
    exact congrArg Except.ok (congrArg groupYearSum
      (List.filter_congr (fun x _ => by simp [inRange])))
  | none, some g =>
    simp only [yearly_dividends]
    exact congrArg Except.ok (congrArg groupYearSum
      (List.filter_congr (fun x _ => by simp [inRange])))
  | none, none =>
    simp only [yearly_dividends]
    exact congrArg Except.ok (congrArg groupYearSum
      (List.filter_eq_self.mpr (fun b _ => by simp [inRange])).symm)

/-- C4: under a valid year range, `yearly_dividends` drops the non-positive
dividend entries first, then applies the inclusive year filter, then groups
by calendar year and sums: the result holds exactly one entry per year with
at least one positive dividend in range, keyed by year in ascending order,
every total is strictly positive (an all-zero year is absent), and each
total is the sum of the qualifying dividends of its year. -/
theorem yearly_dividends_spec (t : Table) (fy ty : Option Nat) (hv : validRange fy ty) :
    ∃ res, yearly_dividends t fy ty = .ok res
      ∧ (res.map Prod.fst).Pairwise (· < ·)
      ∧ (∀ p ∈ res, 0 < p.2)
      ∧ (∀ y, y ∈ res.map Prod.fst ↔
          (∃ p ∈ t, 0 < p.2.dividend ∧ yearOf p.1 = y ∧ inRange fy ty y = true))
      ∧ (∀ y q, (y, q) ∈ res → q =
          (((((dividendSeries t).filter (fun p => decide (0 < p.2))).filter
              (fun p => inRange fy ty (yearOf p.1))).filter
                (fun p => yearOf p.1 == y)).map (fun p => p.2)).sum) := by
  refine ⟨_, yearly_dividends_eq t fy ty hv, groupYearSum_keys_ascending _, ?_, ?_, ?_⟩
  · apply groupYearSum_pos
    intro p hp
    have h1 := (List.mem_filter.mp hp).1
    have h2 := (List.mem_filter.mp h1).2
    simpa using h2
  · intro y
    rw [mem_groupYearSum_keys]
    constructor
    · rintro ⟨p, hp, hy⟩
      rcases List.mem_filter.mp hp with ⟨hp1, hpr⟩
      rcases List.mem_filter.mp hp1 with ⟨hp0, hpos⟩
      rcases List.mem_map.mp hp0 with ⟨r, hr, rfl⟩
      refine ⟨r, hr, by simpa using hpos, hy, ?_⟩
      rw [hy] at hpr
      exact hpr
    · rintro ⟨r, hr, hpos, hy, hrange⟩
      refine ⟨(r.1, r.2.dividend), ?_, hy⟩
      refine List.mem_filter.mpr ⟨List.mem_filter.mpr
        ⟨List.mem_map.mpr ⟨r, hr, rfl⟩, by simpa using hpos⟩, ?_⟩
      show inRange fy ty (yearOf r.1) = true
      rw [hy]
      exact hrange
  · intro y q hq
    exact (groupYearSum_entry hq).1

theorem yearly_dividends_spec_witness :
    validRange (some 2023) (some 2024) ∧
    (∃ res, yearly_dividends tSample (some 2023) (some 2024) = .ok res ∧
      ∀ p ∈ res, 0 < p.2) :=
  ⟨by decide, by
    obtain ⟨res, h1, _, h3, _, _⟩ :=
      yearly_dividends_spec tSample (some 2023) (some 2024) (by decide)
    exact ⟨res, h1, h3⟩⟩

theorem argmaxVar_decomp (l : List (Nat × ℚ × ℚ × ℚ)) (b : Nat × ℚ × ℚ × ℚ) :
    ∃ l₁ l₂, b :: l = l₁ ++ argmaxVar b l :: l₂
      ∧ (∀ x ∈ l₁, x.2.2.2 < (argmaxVar b l).2.2.2)
      ∧ (∀ x ∈ l₂, x.2.2.2 ≤ (argmaxVar b l).2.2.2) := by
  induction l generalizing b with
  | nil => exact ⟨[], [], rfl, by simp, by simp⟩
  | cons x xs ih =>
    by_cases hbx : b.2.2.2 < x.2.2.2
    · have hred : argmaxVar b (x :: xs) = argmaxVar x xs := by
        simp [argmaxVar, hbx]
      rw [hred]
      obtain ⟨l₁, l₂, heq, h₁, h₂⟩ := ih x
      refine ⟨b :: l₁, l₂, by rw [List.cons_append, ← heq], ?_, h₂⟩
      intro z hz
      rcases List.mem_cons.mp hz with rfl | hz'
      · cases l₁ with
        | nil =>
          injection heq with hx _
          rw [← hx]
          exact hbx
        | cons c l₁' =>
          injection heq with hx _
          have hc := h₁ c (List.mem_cons_self c l₁')
          rw [hx] at hbx
          exact lt_trans hbx hc
      · exact h₁ z hz'
    · have hx' : x.2.2.2 ≤ b.2.2.2 := le_of_not_lt hbx
      have hred : argmaxVar b (x :: xs) = argmaxVar b xs := by
        simp [argmaxVar, hbx]
      rw [hred]
      obtain ⟨l₁, l₂, heq, h₁, h₂⟩ := ih b
      cases l₁ with
      | nil =>
        injection heq with hb hxs
        refine ⟨[], x :: l₂, ?_, by simp, ?_⟩
        · rw [List.nil_append, ← hb, hxs]
        · intro z hz
          rcases List.mem_cons.mp hz with rfl | hz'
          · rw [← hb]
            exact hx'
          · exact h₂ z hz'
      | cons c l₁' =>
        injection heq with hb hxs
        refine ⟨b :: x :: l₁', l₂, ?_, ?_, h₂⟩
        · exact congrArg (fun ys => b :: x :: ys) hxs
        · intro z hz
          have hc := h₁ c (List.mem_cons_self c l₁')
          rcases List.mem_cons.mp hz with rfl | hz2
          · have hzc : z.2.2.2 = c.2.2.2 := congrArg (fun w => w.2.2.2) hb
            rw [hzc]
            exact hc
          · rcases List.mem_cons.mp hz2 with rfl | hz3
            · have hzc : z.2.2.2 ≤ c.2.2.2 := by
                rw [← congrArg (fun w => w.2.2.2) hb]
                exact hx'
              exact lt_of_le_of_lt hzc hc
            · exact h₁ z (List.mem_cons_of_mem c hz3)

/-- C5: for every ascending table and valid date range whose filtered
high/low frame is non-empty, `highest_weekly_variation` returns the tuple
(date, high, low, high - low) of a filtered row whose variation is maximal,
and among equal maxima the row with the earliest date (the first occurrence
found by `idxmax` in the ascending scan); the returned date is the plain
date of the index entry of the row. -/
theorem hwv_first_max_variation (t : Table) (hs : keysAscending t)
    (fd td : Option Nat) (s : List (Nat × ℚ × ℚ))
    (hfil : filterByDates (highLowSeries t) fd td = .ok s) (hne : s ≠ []) :
    ∃ d h l, highest_weekly_variation t fd td = .ok (d, h, l, h - l)
      ∧ (d, h, l) ∈ s
      ∧ (∀ p ∈ s, p.2.1 - p.2.2 ≤ h - l)
      ∧ (∀ p ∈ s, p.1 < d → p.2.1 - p.2.2 < h - l) := by
  cases s with
  | nil => exact absurd rfl hne
  | cons x xs =>
    have hred : highest_weekly_variation t fd td =
        .ok (argmaxVar (addVariation x) (xs.map addVariation)) := by
      unfold highest_weekly_variation
      rw [hfil]
    obtain ⟨l₁, l₂, heq, h₁, h₂⟩ := argmaxVar_decomp (xs.map addVariation) (addVariation x)
    have hmem : argmaxVar (addVariation x) (xs.map addVariation) ∈
        (x :: xs).map addVariation := by
      rw [List.map_cons, heq]
      exact List.mem_append.mpr (Or.inr (List.mem_cons_self _ _))
    rcases List.mem_map.mp hmem with ⟨p, hp, hpr⟩
    have hsxs : keysAscending (x :: xs) :=
      List.Pairwise.sublist ((filterByDates_sublist hfil).map Prod.fst)
        (keysAscending_mapVal _ hs)
    have hsL : keysAscending ((x :: xs).map addVariation) :=
      keysAscending_mapVal (fun q => (q.2.1, q.2.2, q.2.1 - q.2.2)) hsxs
    have hsL' : ((l₁ ++ argmaxVar (addVariation x) (xs.map addVariation) :: l₂).map
        Prod.fst).Pairwise (· < ·) := by
      rw [← heq, ← List.map_cons]
      exact hsL
    refine ⟨p.1, p.2.1, p.2.2, ?_, hp, ?_, ?_⟩
    · rw [hred, ← hpr]
      exact rfl
    · intro z hz
      have hzmem : addVariation z ∈ l₁ ++ argmaxVar (addVariation x)
          (xs.map addVariation) :: l₂ := by
        rw [← heq, ← List.map_cons]
        exact List.mem_map_of_mem _ hz
      rcases List.mem_append.mp hzmem with hz1 | hz2
      · have hlt := h₁ _ hz1
        rw [← hpr] at hlt
        exact le_of_lt hlt
      · rcases List.mem_cons.mp hz2 with hzr | hz3
        · have hvv : (addVariation z).2.2.2 =
              (argmaxVar (addVariation x) (xs.map addVariation)).2.2.2 := by rw [hzr]
          rw [← hpr] at hvv
          exact le_of_eq hvv
        · have hle := h₂ _ hz3
          rw [← hpr] at hle
          exact hle
    · intro z hz hzd
      have hzmem : addVariation z ∈ l₁ ++ argmaxVar (addVariation x)
          (xs.map addVariation) :: l₂ := by
        rw [← heq, ← List.map_cons]
        exact List.mem_map_of_mem _ hz
      rcases List.mem_append.mp hzmem with hz1 | hz2
      · have hlt := h₁ _ hz1
        rw [← hpr] at hlt
        exact hlt
      · exfalso
        rcases List.mem_cons.mp hz2 with hzr | hz3
        · have hz1' : z.1 = p.1 := by
            rw [← hpr] at hzr
            exact congrArg (fun w : Nat × ℚ × ℚ × ℚ => w.1) hzr
          rw [hz1'] at hzd
          exact Nat.lt_irrefl _ hzd
        · have hp2 := List.pairwise_map.mp hsL'
          have hcross := (List.pairwise_append.mp hp2).2.1
          have hkey := (List.pairwise_cons.mp hcross).1 _ hz3
          rw [← hpr] at hkey
          exact Nat.lt_asymm hkey hzd

theorem hwv_first_max_variation_witness :
    keysAscending tSample ∧
    filterByDates (highLowSeries tSample) none none = .ok (highLowSeries tSample) ∧
    highLowSeries tSample ≠ [] ∧
    (∃ d h l, highest_weekly_variation tSample none none = .ok (d, h, l, h - l)) :=
  ⟨by decide, rfl, by decide, by
    obtain ⟨d, h, l, h1, _, _, _⟩ :=
      hwv_first_max_variation tSample (by decide) none none
        (highLowSeries tSample) rfl (by decide)
    exact ⟨d, h, l, h1⟩⟩

theorem castColToInt_keys (rows : List (Nat × List (String × Option ℚ))) (n : String) :
    (castColToInt rows n).map Prod.fst = rows.map Prod.fst := by
  unfold castColToInt
  rw [List.map_map]
  rfl

theorem astypeOne_keys {cols : List String} {rows rowsMid : List (Nat × List (String × Option ℚ))}
    {e : String × String × String} (ha : astypeOne cols rows e = .ok rowsMid) :
    rowsMid.map Prod.fst = rows.map Prod.fst := by
  unfold astypeOne at ha
  split at ha
  · split at ha
    · split at ha
      · simp only [Except.ok.injEq] at ha
        rw [← ha]
        exact castColToInt_keys rows e.2.1
      · exact absurd ha (by simp)
    · simp only [Except.ok.injEq] at ha
      rw [ha]
  · exact absurd ha (by simp)

theorem astypeAll_keys {cols : List String} :
    ∀ (es : List (String × String × String))
      (rows rows2 : List (Nat × List (String × Option ℚ))),
    astypeAll cols es rows = .ok rows2 → rows2.map Prod.fst = rows.map Prod.fst := by
  intro es
  induction es with
  | nil =>
    intro rows rows2 h
    simp only [astypeAll, Except.ok.injEq] at h
    rw [← h]
  | cons e es ih =>
    intro rows rows2 h
    simp only [astypeAll] at h
    cases ha : astypeOne cols rows e with
    | error err => rw [ha] at h; exact absurd h (by simp)
    | ok rowsMid =>
      rw [ha] at h
      exact (ih rowsMid rows2 h).trans (astypeOne_keys ha)

theorem astypeAll_mem_cols {cols : List String} :
    ∀ (es : List (String × String × String))
      (rows rows2 : List (Nat × List (String × Option ℚ))),
    astypeAll cols es rows = .ok rows2 → ∀ e ∈ es, e.2.1 ∈ cols := by
  intro es
  induction es with
  | nil =>
    intro rows rows2 _ e he
    exact absurd he (List.not_mem_nil e)
  | cons e0 es ih =>
    intro rows rows2 h e he
    simp only [astypeAll] at h
    cases ha : astypeOne cols rows e0 with
    | error err => rw [ha] at h; exact absurd h (by simp)
    | ok rowsMid =>
      rw [ha] at h
      rcases List.mem_cons.mp he with rfl | he'
      · unfold astypeOne at ha
        by_cases h1 : e.2.1 ∈ cols
        · exact h1
        · rw [if_neg h1] at ha
          exact absurd ha (by simp)
      · exact ih rowsMid rows2 h e he'

/-- C1: for every raw mapping accepted by construction (keys are distinct,
being keys of a Python dict), the date index of the built frame is strictly
ascending: sorted and free of duplicate dates. -/
theorem build_index_strictly_ascending (raw : List (Nat × RawRecord))
    (hk : (raw.map Prod.fst).Nodup) (f : DataFrame)
    (hb : build_data_frame raw = .ok f) :
    (f.rows.map Prod.fst).Pairwise (· < ·) := by
  simp only [build_data_frame] at hb
  split at hb
  · exact absurd hb (by simp)
  split at hb
  · exact absurd hb (by simp)
  split at hb
  · exact absurd hb (by simp)
  rename_i rows3 heq
  simp only [Except.ok.injEq] at hb
  subst hb
  have hkeys : rows3.map Prod.fst = raw.map Prod.fst :=
    (astypeAll_keys data_field2name_type _ rows3 heq).trans (by
      unfold fromDictRows
      rw [List.map_map, List.map_map]
      rfl)
  have hsort : List.Sorted keyLe (List.insertionSort keyLe rows3) :=
    List.sorted_insertionSort _ _
  have hperm : (List.insertionSort keyLe rows3).Perm rows3 :=
    List.perm_insertionSort _ _
  have hnd : ((List.insertionSort keyLe rows3).map Prod.fst).Nodup :=
    ((hperm.map Prod.fst).nodup_iff).mpr (by rw [hkeys]; exact hk)
  have hpl : (List.insertionSort keyLe rows3).Pairwise
      (fun a b : Nat × List (String × Option ℚ) => a.1 ≤ b.1) := hsort
  have hpn : (List.insertionSort keyLe rows3).Pairwise
      (fun a b : Nat × List (String × Option ℚ) => a.1 ≠ b.1) :=
    List.pairwise_map.mp hnd
  show ((List.insertionSort keyLe rows3).map Prod.fst).Pairwise (· < ·)
  rw [List.pairwise_map]
  exact (hpl.and hpn).imp (fun h => Nat.lt_of_le_of_ne h.1 h.2)

theorem build_index_strictly_ascending_witness :
    (rawSample.map Prod.fst).Nodup ∧
    build_data_frame rawSample = .ok (okFrameOf (build_data_frame rawSample)) ∧
    ((okFrameOf (build_data_frame rawSample)).rows.map Prod.fst).Pairwise (· < ·) :=
  ⟨by decide, by decide,
   build_index_strictly_ascending rawSample (by decide) _ (by decide)⟩

/-- C8 (amended): construction does not reject raw field labels outside the
seven expected ones, and a float-kind label missing from some rows does not
abort the build either; what does hold is that every successfully built
frame contains all seven canonical fields among its columns (a label absent
everywhere, or a volume gap, still fails the `astype` step). -/
theorem build_contains_canonical_columns (raw : List (Nat × RawRecord))
    (f : DataFrame) (hb : build_data_frame raw = .ok f) :
    ∀ n ∈ canonicalNames, n ∈ f.cols := by
  simp only [build_data_frame] at hb
  split at hb
  · exact absurd hb (by simp)
  split at hb
  · exact absurd hb (by simp)
  split at hb
  · exact absurd hb (by simp)
  rename_i rows3 heq
  simp only [Except.ok.injEq] at hb
  subst hb
  intro n hn
  rcases List.mem_map.mp hn with ⟨e, he, rfl⟩
  exact astypeAll_mem_cols data_field2name_type _ rows3 heq e he

theorem build_contains_canonical_columns_witness :
    build_data_frame rawSample = .ok (okFrameOf (build_data_frame rawSample)) ∧
    ∀ n ∈ canonicalNames, n ∈ (okFrameOf (build_data_frame rawSample)).cols :=
  ⟨by decide, build_contains_canonical_columns rawSample _ (by decide)⟩

/-- C8 counterexample: a raw payload with an eighth unknown label builds
successfully into a frame of eight columns that keeps the unknown label, and
a payload whose second record lacks the "1. open" label also builds
successfully, with a missing (`NaN`) cell in the `open` column of that row
instead of an `InvalidDataError`. -/
theorem build_unexpected_labels_not_rejected :
    (build_data_frame rawExtra = .ok (okFrameOf (build_data_frame rawExtra))
      ∧ (okFrameOf (build_data_frame rawExtra)).cols.length = 8
      ∧ "8. split coefficient" ∈ (okFrameOf (build_data_frame rawExtra)).cols)
    ∧ (build_data_frame rawMissing = .ok (okFrameOf (build_data_frame rawMissing))
      ∧ ((okFrameOf (build_data_frame rawMissing)).rows.map
          (fun r => cellOf r.2 "open")) = [some 300, none]) := by
  decide
